import Mathlib

/-
Verification of `twisted/conch/ssh/factory.py` (class `SSHFactory`):
a shallow embedding of the factory's startup check, per-connection
transport construction, Diffie-Hellman group selection and service
routing, together with theorems settling the specified properties.

Modelling conventions:
  * Python dicts are embedded as association lists in insertion order
    (CPython dicts preserve insertion order, which is the repository's
    "natural enumeration order").
  * Key material is opaque to this module; blobs and key objects are
    modelled as strings.
  * A Python attribute that may be unset (`hasattr` checks) is an
    `Option`-valued field; the attribute `primes` may additionally be
    set to Python `None`, hence its doubly-optional type.
  * Raising is modelled with `Except PyError` for the loaders and with
    an explicit `(state, Option PyError)` result for `startFactory`,
    which mutates `self` before it can raise.
  * `random.choice` is modelled by an explicit random number `rand`,
    reduced modulo the list length; on an empty list it fails (`none`),
    as `random.choice` raises there.
  * The classification `_kex.isFixedGroup` lives outside this unit and
    is a pure function of the algorithm name, so it is a parameter.
-/

namespace SSHFactory

/-- Python exceptions that the embedded code can raise: `KeyError` from
dict indexing, `NotImplementedError` from the default loaders, and
`ConchError` (the spec's `ConfigurationError`) from the host-key check. -/
inductive PyError where
  | keyError : PyError
  | notImplemented : String → PyError
  | conchError : String → PyError
deriving DecidableEq, Repr

/-- Mapping from SSH key types to public key blobs (`getPublicKeys` result). -/
abbrev PubMap := List (String × String)

/-- Mapping from SSH key types to private key objects (`getPrivateKeys` result). -/
abbrev PrivMap := List (String × String)

/-- Mapping from bit counts to lists of (generator, prime) pairs
(`getPrimes` result, when not `None`). -/
abbrev PrimesMap := List (Nat × List (Nat × Nat))

/-- The mutable attributes of an `SSHFactory` instance that the embedded
methods read and write.  `none` in the outer `Option` means the Python
attribute is not set (`hasattr` is false). -/
structure FactoryState where
  publicKeys : Option PubMap
  privateKeys : Option PrivMap
  primes : Option (Option PrimesMap)
deriving DecidableEq, Repr

/-- First-match association-list lookup: Python dict indexing `l[k]`
succeeds exactly when the key is present. -/
def lookupKey {κ α : Type} [DecidableEq κ] (k : κ) : List (κ × α) → Option α
  | [] => none
  | (k2, v) :: rest => if k = k2 then some v else lookupKey k rest

/-- Default `SSHFactory.getPublicKeys`: `raise NotImplementedError('getPublicKeys unimplemented')`. -/
def defaultGetPublicKeys : Except PyError PubMap :=
  Except.error (PyError.notImplemented "getPublicKeys unimplemented")

/-- Default `SSHFactory.getPrivateKeys`: `raise NotImplementedError('getPrivateKeys unimplemented')`. -/
def defaultGetPrivateKeys : Except PyError PrivMap :=
  Except.error (PyError.notImplemented "getPrivateKeys unimplemented")

/-- Default `SSHFactory.getPrimes`: the method body is only a docstring,
so it returns `None` and raises nothing. -/
def defaultGetPrimes : Except PyError (Option PrimesMap) :=
  Except.ok none

/-- `SSHFactory.startFactory`.  The loaders `gp`, `gk`, `gm` stand for the
(possibly overridden) methods `getPublicKeys`, `getPrivateKeys`,
`getPrimes`; each is consulted only when the corresponding attribute is
unset.  The result is the factory state after the call, paired with the
exception it raised, if any (`none` means normal return).  State updates
before a raise are kept, as in Python. -/
def startFactory (f : FactoryState) (gp : Except PyError PubMap)
    (gk : Except PyError PrivMap) (gm : Except PyError (Option PrimesMap)) :
    FactoryState × Option PyError :=
  match (match f.publicKeys with | some v => Except.ok v | none => gp) with
  | Except.error e => (f, some e)
  | Except.ok pub =>
    let f1 : FactoryState := { f with publicKeys := some pub }
    match (match f1.privateKeys with | some v => Except.ok v | none => gk) with
    | Except.error e => (f1, some e)
    | Except.ok priv =>
      let f2 : FactoryState := { f1 with privateKeys := some priv }
      if pub.isEmpty || priv.isEmpty then
        (f2, some (PyError.conchError "no host keys, failing"))
      else
        match (match f2.primes with | some v => Except.ok v | none => gm) with
        | Except.error e => (f2, some e)
        | Except.ok pr => ({ f2 with primes := some pr }, none)

/-- The per-connection transport fields this module touches.
`avatar` models `hasattr(transport, 'avatar')`: the authenticated-identity
marker. -/
structure Transport where
  supportedPublicKeys : List String
  supportedKeyExchanges : List String
  avatar : Bool
deriving DecidableEq, Repr

/-- Python truthiness of the `primes` attribute value: `None` and the
empty dict are falsy, a non-empty dict is truthy. -/
def primesTruthy : Option PrimesMap → Bool
  | none => false
  | some [] => false
  | some (_ :: _) => true

/-- `SSHFactory.buildProtocol`.  `isFixedGroup` is `_kex.isFixedGroup`,
an external pure classifier of algorithm names.  `t` is the fresh
transport produced by `protocol.Factory.buildProtocol` with its default
`supportedKeyExchanges`.  Returns `none` when the factory attributes the
method reads (`privateKeys`, `primes`) are unset, which in Python would
raise `AttributeError`; after a successful `startFactory` both are set. -/
def buildProtocol (f : FactoryState) (isFixedGroup : String → Bool)
    (t : Transport) : Option Transport :=
  match f.privateKeys, f.primes with
  | some priv, some pr =>
    let t1 : Transport := { t with supportedPublicKeys := priv.map Prod.fst }
    some (if primesTruthy pr then t1
          else { t1 with
                  supportedKeyExchanges :=
                    t1.supportedKeyExchanges.filter isFixedGroup })
  | _, _ => none

/-- `abs(k - bits)`: the comparator key used by `getDHPrime`'s sort. -/
def keyDist (bits k : Nat) : Nat := ((k : Int) - (bits : Int)).natAbs

/-- Insert `x` into a list already sorted by distance to `bits`, before
the first element at equal or greater distance.  Together with
`sortByDist` this is the unique stable sort by the comparator
`cmp(abs(x - bits), abs(y - bits))`; CPython's `list.sort` is stable,
so any stable sort is a faithful embedding of line 116 of the source. -/
def insertByDist (bits x : Nat) : List Nat → List Nat
  | [] => [x]
  | y :: ys =>
    if keyDist bits x ≤ keyDist bits y then x :: y :: ys
    else y :: insertByDist bits x ys

/-- Stable sort of the stored bit counts by distance to `bits`. -/
def sortByDist (bits : Nat) : List Nat → List Nat
  | [] => []
  | x :: xs => insertByDist bits x (sortByDist bits xs)

/-- `primesKeys[0]` after the sort in `getDHPrime`: the winning stored
bit count, or `none` when the repository is empty (Python would raise
`IndexError` there). -/
def realBitsOf (primes : PrimesMap) (bits : Nat) : Option Nat :=
  (sortByDist bits (primes.map Prod.fst)).head?

/-- `random.choice(l)`: picks the element at a random valid index;
raises (`none`) on an empty sequence. -/
def choice {α : Type} (l : List α) (rand : Nat) : Option α :=
  l[rand % l.length]?

/-- `SSHFactory.getDHPrime` on a loaded primes mapping: sort the stored
bit counts by distance to `bits` (stably), take the first, and choose a
random group stored under it.  `rand` supplies the randomness. -/
def getDHPrime (primes : PrimesMap) (bits rand : Nat) : Option (Nat × Nat) :=
  match realBitsOf primes bits with
  | none => none
  | some rb =>
    match lookupKey rb primes with
    | none => none
    | some groups => choice groups rand

/-- The spec's selection rule for `nearestGroup`, written from its words:
scan the stored bit counts in enumeration order and keep the first one
minimizing `abs(storedBits - targetBits)`.  Used to state that the
source's sort-then-head refines this rule. -/
def specNearestBits (bits : Nat) : List Nat → Option Nat
  | [] => none
  | k :: ks =>
    match specNearestBits bits ks with
    | none => some k
    | some m => if keyDist bits k ≤ keyDist bits m then some k else some m

/-- The protocol services this factory offers, an inductive stand-in for
the two service classes. -/
inductive Service where
  | userAuthServer : Service
  | connection : Service
deriving DecidableEq, Repr

/-- The class-level `services` dict:
`{'ssh-userauth': SSHUserAuthServer, 'ssh-connection': SSHConnection}`. -/
def services : List (String × Service) :=
  [("ssh-userauth", Service.userAuthServer), ("ssh-connection", Service.connection)]

/-- `SSHFactory.getService`.  When the guard passes, Python evaluates
`self.services[service]`, which raises `KeyError` on an unknown name;
when the guard fails the method falls through and returns `None`
(`Except.ok none`). -/
def getService (table : List (String × Service)) (hasAvatar : Bool)
    (service : String) : Except PyError (Option Service) :=
  if service = "ssh-userauth" || hasAvatar then
    match lookupKey service table with
    | some s => Except.ok (some s)
    | none => Except.error PyError.keyError
  else Except.ok none

/- Helper lemmas. -/

theorem specNearestBits_eq_none {bits : Nat} {l : List Nat}
    (h : specNearestBits bits l = none) : l = [] := by
  cases l with
  | nil => rfl
  | cons x xs =>
    exfalso
    cases h2 : specNearestBits bits xs with
    | none => simp [specNearestBits, h2] at h
    | some m =>
      simp only [specNearestBits, h2] at h
      split at h <;> simp_all

theorem sortByDist_head (bits : Nat) :
    ∀ l : List Nat, (sortByDist bits l).head? = specNearestBits bits l
  | [] => rfl
  | x :: xs => by
    have ih := sortByDist_head bits xs
    cases h : sortByDist bits xs with
    | nil =>
      rw [h] at ih
      simp [sortByDist, h, insertByDist, specNearestBits, ← ih]
    | cons y ys =>
      rw [h] at ih
      simp only [sortByDist, h, specNearestBits, ← ih, List.head?]
      by_cases hd : keyDist bits x ≤ keyDist bits y
      · simp [insertByDist, hd]
      · simp [insertByDist, hd]

theorem specNearestBits_spec (bits : Nat) :
    ∀ (l : List Nat) (m : Nat), specNearestBits bits l = some m →
      m ∈ l ∧ (∀ k ∈ l, keyDist bits m ≤ keyDist bits k) ∧
      ∃ l1 l2, l = l1 ++ m :: l2 ∧ ∀ k ∈ l1, keyDist bits m < keyDist bits k
  | [], m, h => by simp [specNearestBits] at h
  | x :: xs, m, h => by
    cases h2 : specNearestBits bits xs with
    | none =>
      have hnil := specNearestBits_eq_none h2
      subst hnil
      simp only [specNearestBits, h2] at h
      cases h
      exact ⟨by simp, by simp, [], [], by simp, by simp⟩
    | some m0 =>
      obtain ⟨hmem, hmin, l1, l2, hsplit, hlt⟩ :=
        specNearestBits_spec bits xs m0 h2
      simp only [specNearestBits, h2] at h
      by_cases hd : keyDist bits x ≤ keyDist bits m0
      · rw [if_pos hd] at h
        cases h
        refine ⟨by simp, ?_, [], xs, by simp, by simp⟩
        intro k hk
        rcases List.mem_cons.mp hk with hk | hk
        · subst hk; exact le_refl _
        · exact le_trans hd (hmin k hk)
      · rw [if_neg hd] at h
        cases h
        push_neg at hd
        refine ⟨List.mem_cons_of_mem _ hmem, ?_, x :: l1, l2, by simp [hsplit], ?_⟩
        · intro k hk
          rcases List.mem_cons.mp hk with hk | hk
          · subst hk; exact le_of_lt hd
          · exact hmin k hk
        · intro k hk
          rcases List.mem_cons.mp hk with hk | hk
          · subst hk; exact hd
          · exact hlt k hk

theorem lookupKey_of_mem_keys {κ α : Type} [DecidableEq κ] (k : κ) :
    ∀ l : List (κ × α), k ∈ l.map Prod.fst → ∃ v, lookupKey k l = some v
  | [], h => by simp at h
  | (k2, v) :: rest, h => by
    by_cases hk : k = k2
    · exact ⟨v, by simp [lookupKey, hk]⟩
    · simp only [List.map_cons, List.mem_cons] at h
      rcases h with h | h
      · exact absurd h hk
      · obtain ⟨w, hw⟩ := lookupKey_of_mem_keys k rest h
        exact ⟨w, by simp [lookupKey, hk, hw]⟩

theorem mem_of_lookupKey {κ α : Type} [DecidableEq κ] (k : κ) :
    ∀ (l : List (κ × α)) (v : α), lookupKey k l = some v → (k, v) ∈ l
  | [], v, h => by simp [lookupKey] at h
  | (k2, w) :: rest, v, h => by
    by_cases hk : k = k2
    · simp only [lookupKey, if_pos hk] at h
      cases h
      simp [hk]
    · simp only [lookupKey, if_neg hk] at h
      exact List.mem_cons_of_mem _ (mem_of_lookupKey k rest v h)

theorem choice_mem {α : Type} (l : List α) (rand : Nat) (h : l ≠ []) :
    ∃ a, choice l rand = some a ∧ a ∈ l := by
  have hlen : 0 < l.length := List.length_pos.mpr h
  have hm : rand % l.length < l.length := Nat.mod_lt _ hlen
  exact ⟨l[rand % l.length],
    by simp [choice, List.getElem?_eq_getElem hm],
    List.getElem_mem hm⟩

/- Claim theorems. -/

/-- C1: for every host-key configuration, `startFactory` succeeds exactly
when both the loaded public-key and private-key mappings are non-empty;
when either (or both) is empty it raises `ConchError` with the
"no host keys" message, the `primes` attribute is never populated, and
`buildProtocol` cannot build a connection from the resulting state. -/
theorem startFactory_hostKeyCheck (pub : PubMap) (priv : PrivMap)
    (pr : Option PrimesMap) :
    ((startFactory ⟨none, none, none⟩ (Except.ok pub) (Except.ok priv)
        (Except.ok pr)).2 = none ↔ pub ≠ [] ∧ priv ≠ []) ∧
    ((pub = [] ∨ priv = []) →
      startFactory ⟨none, none, none⟩ (Except.ok pub) (Except.ok priv)
          (Except.ok pr) =
        (⟨some pub, some priv, none⟩,
         some (PyError.conchError "no host keys, failing")) ∧
      ∀ (ifg : String → Bool) (t : Transport),
        buildProtocol (startFactory ⟨none, none, none⟩ (Except.ok pub)
          (Except.ok priv) (Except.ok pr)).1 ifg t = none) := by
  constructor
  · simp only [startFactory]
    by_cases h1 : pub.isEmpty <;> by_cases h2 : priv.isEmpty <;>
      simp_all [List.isEmpty_iff]
  · intro h
    have he : (pub.isEmpty || priv.isEmpty) = true := by
      rcases h with h | h <;> simp [h]
    constructor
    · simp [startFactory, he]
    · intro ifg t
      simp [startFactory, he, buildProtocol]

/-- C1 witness: with a non-empty public map and an empty private map the
startup check raises the "no host keys" error. -/
theorem startFactory_hostKeyCheck_witness :
    startFactory ⟨none, none, none⟩ (Except.ok [("ssh-rsa", "blob")])
        (Except.ok []) (Except.ok (some [])) =
      (⟨some [("ssh-rsa", "blob")], some [], none⟩,
       some (PyError.conchError "no host keys, failing")) :=
  ((startFactory_hostKeyCheck [("ssh-rsa", "blob")] [] (some [])).2
    (Or.inr rfl)).1

/-- C2: for every ordered key-exchange list, a truthy (non-empty) primes
mapping leaves the transport's advertised key-exchange list unchanged,
while a falsy one (empty dict or `None`) replaces it by the filter of
the fixed-group algorithms — a sublist of the input whose members are
exactly the fixed-group members of the input, in original order — and
`startFactory` still succeeds when the moduli mapping is empty. -/
theorem buildProtocol_kexFilter (priv : PrivMap) (pr : Option PrimesMap)
    (f : FactoryState) (ifg : String → Bool) (t : Transport)
    (hpriv : f.privateKeys = some priv) (hpr : f.primes = some pr) :
    (primesTruthy pr = true →
      buildProtocol f ifg t =
        some { t with supportedPublicKeys := priv.map Prod.fst }) ∧
    (primesTruthy pr = false →
      ∃ t2, buildProtocol f ifg t = some t2 ∧
        t2.supportedKeyExchanges = t.supportedKeyExchanges.filter ifg ∧
        List.Sublist t2.supportedKeyExchanges t.supportedKeyExchanges ∧
        (∀ a, a ∈ t2.supportedKeyExchanges ↔
          a ∈ t.supportedKeyExchanges ∧ ifg a = true)) ∧
    (∀ pub : PubMap, pub ≠ [] → priv ≠ [] →
      (startFactory ⟨none, none, none⟩ (Except.ok pub) (Except.ok priv)
        (Except.ok (some []))).2 = none) := by
  refine ⟨?_, ?_, ?_⟩
  · intro ht
    simp [buildProtocol, hpriv, hpr, ht]
  · intro ht
    refine ⟨({ t with
                supportedPublicKeys := priv.map Prod.fst,
                supportedKeyExchanges := t.supportedKeyExchanges.filter ifg } :
             Transport),
            ?_, rfl, List.filter_sublist _, fun a => List.mem_filter⟩
    simp [buildProtocol, hpriv, hpr, ht]
  · intro pub h1 h2
    have he1 : pub.isEmpty = false := by
      cases pub with
      | nil => exact absurd rfl h1
      | cons p ps => rfl
    have he2 : priv.isEmpty = false := by
      cases priv with
      | nil => exact absurd rfl h2
      | cons q qs => rfl
    simp [startFactory, he1, he2]

/-- C2 witness: with a non-empty primes mapping the default key-exchange
list is advertised unchanged. -/
theorem buildProtocol_kexFilter_witness :
    buildProtocol
        ⟨some [("ssh-rsa", "k")], some [("ssh-rsa", "k")],
         some (some [(2048, [(2, 23)])])⟩
        (fun a => a == "curve25519-sha256")
        ⟨[], ["diffie-hellman-group-exchange-sha256", "curve25519-sha256"],
         false⟩ =
      some { supportedPublicKeys := ["ssh-rsa"],
             supportedKeyExchanges :=
               ["diffie-hellman-group-exchange-sha256", "curve25519-sha256"],
             avatar := false } :=
  (buildProtocol_kexFilter [("ssh-rsa", "k")] (some [(2048, [(2, 23)])])
    _ _ _ rfl rfl).1 rfl

/-- C7: every transport built from a started factory (its `privateKeys`
and `primes` attributes set) has `supportedPublicKeys` equal to the key
types of the private-key mapping — not of the public-key mapping. -/
theorem buildProtocol_supportedPublicKeys (f : FactoryState)
    (ifg : String → Bool) (t : Transport) (priv : PrivMap)
    (pr : Option PrimesMap)
    (hpriv : f.privateKeys = some priv) (hpr : f.primes = some pr) :
    ∃ t2, buildProtocol f ifg t = some t2 ∧
      t2.supportedPublicKeys = priv.map Prod.fst := by
  cases hpt : primesTruthy pr with
  | true =>
    exact ⟨{ t with supportedPublicKeys := priv.map Prod.fst },
      by simp [buildProtocol, hpriv, hpr, hpt], rfl⟩
  | false =>
    exact ⟨({ t with
               supportedPublicKeys := priv.map Prod.fst,
               supportedKeyExchanges := t.supportedKeyExchanges.filter ifg } :
            Transport),
      by simp [buildProtocol, hpriv, hpr, hpt], rfl⟩

/-- C7 witness, end to end: starting a factory whose public-key mapping
holds "ssh-rsa" but whose private-key mapping holds "ssh-ed25519", with
an empty moduli mapping, builds a transport advertising exactly
"ssh-ed25519" (the private-key side, not the public-key side). -/
theorem buildProtocol_supportedPublicKeys_witness :
    ∃ t2, buildProtocol
        (startFactory ⟨none, none, none⟩ (Except.ok [("ssh-rsa", "pubblob")])
          (Except.ok [("ssh-ed25519", "privkey")]) (Except.ok (some []))).1
        (fun _ => false)
        ⟨[], ["diffie-hellman-group-exchange-sha256"], false⟩ = some t2 ∧
      t2.supportedPublicKeys = ["ssh-ed25519"] :=
  buildProtocol_supportedPublicKeys _ _ _ [("ssh-ed25519", "privkey")]
    (some []) rfl rfl

/-- C3: on a non-empty repository, `getDHPrime` selects the stored bit
count that the spec's first-minimizer scan selects: a stored bit count
of minimal distance to the target, such that every strictly earlier bit
count in the repository's enumeration order has strictly greater
distance.  The selection is a pure function of the repository and the
target — `rand` plays no part in it — so it is deterministic and stable
across repeated calls: every call's returned pair comes from the list
stored under this same winning bit count. -/
theorem getDHPrime_nearestBits (primes : PrimesMap) (bits : Nat)
    (h : primes ≠ []) :
    ∃ rb, realBitsOf primes bits = some rb ∧
      specNearestBits bits (primes.map Prod.fst) = some rb ∧
      rb ∈ primes.map Prod.fst ∧
      (∀ k ∈ primes.map Prod.fst, keyDist bits rb ≤ keyDist bits k) ∧
      (∃ l1 l2, primes.map Prod.fst = l1 ++ rb :: l2 ∧
        ∀ k ∈ l1, keyDist bits rb < keyDist bits k) ∧
      (∀ rand pair, getDHPrime primes bits rand = some pair →
        ∃ groups, lookupKey rb primes = some groups ∧ pair ∈ groups) := by
  cases hs : specNearestBits bits (primes.map Prod.fst) with
  | none =>
    have := specNearestBits_eq_none hs
    simp only [List.map_eq_nil_iff] at this
    exact absurd this h
  | some rb =>
    obtain ⟨hmem, hmin, hfirst⟩ := specNearestBits_spec bits _ rb hs
    have hreal : realBitsOf primes bits = some rb := by
      rw [realBitsOf, sortByDist_head, hs]
    refine ⟨rb, hreal, rfl, hmem, hmin, hfirst, ?_⟩
    intro rand pair hp
    simp only [getDHPrime, hreal] at hp
    cases hl : lookupKey rb primes with
    | none => simp [hl] at hp
    | some groups =>
      simp only [hl] at hp
      refine ⟨groups, rfl, ?_⟩
      simp only [choice] at hp
      exact List.getElem?_mem hp

/-- C3 witness: with stored bit counts 1024 and 3072 (in that order) and
target 2048, both at distance 1024, the earlier entry 1024 wins. -/
theorem getDHPrime_nearestBits_witness :
    realBitsOf [(1024, [(2, 23)]), (3072, [(5, 47)])] 2048 = some 1024 := by
  obtain ⟨rb, h1, h2, _⟩ :=
    getDHPrime_nearestBits [(1024, [(2, 23)]), (3072, [(5, 47)])] 2048
      (by decide)
  have h3 : specNearestBits 2048
      ((([(1024, [(2, 23)]), (3072, [(5, 47)])]) : PrimesMap).map Prod.fst) =
      some 1024 := by decide
  have hrb : rb = 1024 := Option.some.inj (h2.symm.trans h3)
  exact hrb ▸ h1

/-- C4: if the repository is non-empty and every stored bit count has a
non-empty group list, `getDHPrime` cannot fail: the sorted key list has
a head, the dict lookup succeeds, the random choice is in range, and
the returned pair belongs to the list stored under the winning bit
count. -/
theorem getDHPrime_safe (primes : PrimesMap) (bits rand : Nat)
    (h1 : primes ≠ []) (h2 : ∀ p ∈ primes, p.2 ≠ []) :
    ∃ rb groups pair, realBitsOf primes bits = some rb ∧
      lookupKey rb primes = some groups ∧
      getDHPrime primes bits rand = some pair ∧ pair ∈ groups := by
  cases hs : specNearestBits bits (primes.map Prod.fst) with
  | none =>
    have := specNearestBits_eq_none hs
    simp only [List.map_eq_nil_iff] at this
    exact absurd this h1
  | some rb =>
    obtain ⟨hmem, -, -⟩ := specNearestBits_spec bits _ rb hs
    have hreal : realBitsOf primes bits = some rb := by
      rw [realBitsOf, sortByDist_head, hs]
    obtain ⟨groups, hg⟩ := lookupKey_of_mem_keys rb primes hmem
    have hgs : groups ≠ [] := h2 (rb, groups) (mem_of_lookupKey rb primes groups hg)
    obtain ⟨pair, hc, hpm⟩ := choice_mem groups rand hgs
    refine ⟨rb, groups, pair, hreal, hg, ?_, hpm⟩
    simp only [getDHPrime, hreal, hg]
    exact hc

/-- C4 witness: a two-entry repository with non-empty group lists yields
a pair from the winning bit count's list. -/
theorem getDHPrime_safe_witness :
    ∃ rb groups pair,
      realBitsOf [(1024, [(2, 23), (5, 31)]), (3072, [(5, 47)])] 2000 =
        some rb ∧
      lookupKey rb [(1024, [(2, 23), (5, 31)]), (3072, [(5, 47)])] =
        some groups ∧
      getDHPrime [(1024, [(2, 23), (5, 31)]), (3072, [(5, 47)])] 2000 7 =
        some pair ∧
      pair ∈ groups :=
  getDHPrime_safe [(1024, [(2, 23), (5, 31)]), (3072, [(5, 47)])] 2000 7
    (by decide) (by decide)

/-- C5: `getService` returns the table entry for "ssh-userauth"
regardless of identity; with identity established it returns the table
entry for any name present in the table; an unauthenticated session
requesting any other service name gets `None`. -/
theorem getService_routing :
    (∀ hasAvatar : Bool,
      getService services hasAvatar "ssh-userauth" =
        Except.ok (some Service.userAuthServer)) ∧
    (∀ (name : String) (s : Service), lookupKey name services = some s →
      getService services true name = Except.ok (some s)) ∧
    (∀ name : String, name ≠ "ssh-userauth" →
      getService services false name = Except.ok none) := by
  refine ⟨?_, ?_, ?_⟩
  · intro hasAvatar
    cases hasAvatar <;> rfl
  · intro name s h
    simp [getService, h]
  · intro name h
    simp [getService, h]

/-- C5 witness: an unauthenticated request for "ssh-connection" is
answered with `None`. -/
theorem getService_routing_witness :
    getService services false "ssh-connection" = Except.ok none :=
  getService_routing.2.2 "ssh-connection" (by decide)

/-- C6 counterexample: with identity established, requesting
"unknown-service" does not return `None` — the dict indexing raises
`KeyError`. -/
theorem getService_unknown_identity_cex :
    getService services true "unknown-service" =
      Except.error PyError.keyError ∧
    getService services true "unknown-service" ≠ Except.ok none := by
  have h1 : getService services true "unknown-service" =
      Except.error PyError.keyError := rfl
  refine ⟨h1, ?_⟩
  rw [h1]
  intro h
  exact Except.noConfusion h

/-- C6 amended: for a session with established identity, a service name
absent from the service table makes `getService` raise `KeyError`
rather than return `None`. -/
theorem getService_unknown_identity (name : String)
    (h : lookupKey name services = none) :
    getService services true name = Except.error PyError.keyError := by
  simp [getService, h]

/-- C6 amended witness: the concrete name "unknown-service". -/
theorem getService_unknown_identity_witness :
    getService services true "unknown-service" =
      Except.error PyError.keyError :=
  getService_unknown_identity "unknown-service" (by decide)

/-- C8: `startFactory` is idempotent with respect to pre-populated
state.  A pre-set `publicKeys`, `privateKeys` or `primes` attribute
makes the run independent of the corresponding loader (it is never
invoked) and keeps its pre-set value, and a second run after a
successful run — with arbitrary, possibly raising, loaders — returns
the same state with no error. -/
theorem startFactory_idempotent :
    (∀ (v : PubMap) (fk : Option PrivMap) (fm : Option (Option PrimesMap))
       (gp gp2 : Except PyError PubMap) (gk : Except PyError PrivMap)
       (gm : Except PyError (Option PrimesMap)),
       startFactory ⟨some v, fk, fm⟩ gp gk gm =
         startFactory ⟨some v, fk, fm⟩ gp2 gk gm ∧
       (startFactory ⟨some v, fk, fm⟩ gp gk gm).1.publicKeys = some v) ∧
    (∀ (fp : Option PubMap) (v : PrivMap) (fm : Option (Option PrimesMap))
       (gp : Except PyError PubMap) (gk gk2 : Except PyError PrivMap)
       (gm : Except PyError (Option PrimesMap)),
       startFactory ⟨fp, some v, fm⟩ gp gk gm =
         startFactory ⟨fp, some v, fm⟩ gp gk2 gm ∧
       (startFactory ⟨fp, some v, fm⟩ gp gk gm).1.privateKeys = some v) ∧
    (∀ (fp : Option PubMap) (fk : Option PrivMap) (v : Option PrimesMap)
       (gp : Except PyError PubMap) (gk : Except PyError PrivMap)
       (gm gm2 : Except PyError (Option PrimesMap)),
       startFactory ⟨fp, fk, some v⟩ gp gk gm =
         startFactory ⟨fp, fk, some v⟩ gp gk gm2 ∧
       (startFactory ⟨fp, fk, some v⟩ gp gk gm).1.primes = some v) ∧
    (∀ (f f2 : FactoryState) (gp gp2 : Except PyError PubMap)
       (gk gk2 : Except PyError PrivMap)
       (gm gm2 : Except PyError (Option PrimesMap)),
       startFactory f gp gk gm = (f2, none) →
       startFactory f2 gp2 gk2 gm2 = (f2, none)) := by
  refine ⟨?_, ?_, ?_, ?_⟩
  · intro v fk fm gp gp2 gk gm
    refine ⟨rfl, ?_⟩
    simp only [startFactory]
    cases fk with
    | none =>
      cases gk with
      | error e => rfl
      | ok priv =>
        by_cases h : (v.isEmpty || priv.isEmpty) = true
        · simp [h]
        · cases fm with
          | none =>
            cases gm with
            | error e => simp [h]
            | ok pr => simp [h]
          | some pv => simp [h]
    | some w =>
      by_cases h : (v.isEmpty || w.isEmpty) = true
      · simp [h]
      · cases fm with
        | none =>
          cases gm with
          | error e => simp [h]
          | ok pr => simp [h]
        | some pv => simp [h]
  · intro fp v fm gp gk gk2 gm
    cases fp with
    | none =>
      cases gp with
      | error e => exact ⟨rfl, rfl⟩
      | ok pub =>
        refine ⟨rfl, ?_⟩
        simp only [startFactory]
        by_cases h : (pub.isEmpty || v.isEmpty) = true
        · simp [h]
        · cases fm with
          | none =>
            cases gm with
            | error e => simp [h]
            | ok pr => simp [h]
          | some pv => simp [h]
    | some pub =>
      refine ⟨rfl, ?_⟩
      simp only [startFactory]
      by_cases h : (pub.isEmpty || v.isEmpty) = true
      · simp [h]
      · cases fm with
        | none =>
          cases gm with
          | error e => simp [h]
          | ok pr => simp [h]
        | some pv => simp [h]
  · intro fp fk v gp gk gm gm2
    cases fp with
    | none =>
      cases gp with
      | error e => exact ⟨rfl, rfl⟩
      | ok pub =>
        cases fk with
        | none =>
          cases gk with
          | error e => exact ⟨rfl, rfl⟩
          | ok priv =>
            by_cases h : (pub.isEmpty || priv.isEmpty) = true
            · constructor <;> simp [startFactory, h]
            · constructor <;> simp [startFactory, h]
        | some priv =>
          by_cases h : (pub.isEmpty || priv.isEmpty) = true
          · constructor <;> simp [startFactory, h]
          · constructor <;> simp [startFactory, h]
    | some pub =>
      cases fk with
      | none =>
        cases gk with
        | error e => exact ⟨rfl, rfl⟩
        | ok priv =>
          by_cases h : (pub.isEmpty || priv.isEmpty) = true
          · constructor <;> simp [startFactory, h]
          · constructor <;> simp [startFactory, h]
      | some priv =>
        by_cases h : (pub.isEmpty || priv.isEmpty) = true
        · constructor <;> simp [startFactory, h]
        · constructor <;> simp [startFactory, h]
  · intro f f2 gp gp2 gk gk2 gm gm2 h
    simp only [startFactory] at h
    split at h
    · rw [Prod.mk.injEq] at h
      exact absurd h.2 (by simp)
    · split at h
      · rw [Prod.mk.injEq] at h
        exact absurd h.2 (by simp)
      · split at h
        · rw [Prod.mk.injEq] at h
          exact absurd h.2 (by simp)
        · split at h
          · rw [Prod.mk.injEq] at h
            exact absurd h.2 (by simp)
          · rw [Prod.mk.injEq] at h
            obtain ⟨hf2, -⟩ := h
            subst hf2
            simp [startFactory, *]

/-- C8 witness: a factory pre-seeded with host keys and a `None` primes
attribute passes a second `startFactory` run unchanged, even though the
loaders supplied on the second run are the default raising ones. -/
theorem startFactory_idempotent_witness :
    startFactory ⟨some [("ssh-rsa", "a")], some [("ssh-rsa", "b")], some none⟩
        defaultGetPublicKeys defaultGetPrivateKeys defaultGetPrimes =
      (⟨some [("ssh-rsa", "a")], some [("ssh-rsa", "b")], some none⟩, none) :=
  startFactory_idempotent.2.2.2 ⟨none, none, none⟩
    ⟨some [("ssh-rsa", "a")], some [("ssh-rsa", "b")], some none⟩
    (Except.ok [("ssh-rsa", "a")]) defaultGetPublicKeys
    (Except.ok [("ssh-rsa", "b")]) defaultGetPrivateKeys
    (Except.ok none) defaultGetPrimes rfl

/-- C9 counterexample: the default moduli-source loader does not raise
`NotImplementedError` — it returns `None`. -/
theorem defaultGetPrimes_cex :
    defaultGetPrimes = Except.ok (none : Option PrimesMap) ∧
    ¬ ∃ msg, defaultGetPrimes =
      Except.error (PyError.notImplemented msg) := by
  refine ⟨rfl, ?_⟩
  rintro ⟨msg, h⟩
  simp [defaultGetPrimes] at h

/-- C9 amended: with no concrete collaborator supplied, the two
key-source loaders raise `NotImplementedError` (distinct from `KeyError`
and from the `ConchError` configuration failure), and a fresh factory
started with them fails with that error; the moduli-source loader,
however, returns `None` without raising. -/
theorem defaultLoaders_raise :
    defaultGetPublicKeys =
      Except.error (PyError.notImplemented "getPublicKeys unimplemented") ∧
    defaultGetPrivateKeys =
      Except.error (PyError.notImplemented "getPrivateKeys unimplemented") ∧
    defaultGetPrimes = Except.ok none ∧
    (startFactory ⟨none, none, none⟩ defaultGetPublicKeys
        defaultGetPrivateKeys defaultGetPrimes).2 =
      some (PyError.notImplemented "getPublicKeys unimplemented") ∧
    (∀ msg, PyError.notImplemented msg ≠ PyError.keyError) ∧
    (∀ msg msg2, PyError.notImplemented msg ≠ PyError.conchError msg2) := by
  refine ⟨rfl, rfl, rfl, rfl, ?_, ?_⟩
  · intro msg h
    exact PyError.noConfusion h
  · intro msg msg2 h
    exact PyError.noConfusion h

/-- C10: leaving the moduli loader at its default makes `startFactory`
succeed (host keys present) and record `primes = None`; the transport
then built has its key-exchange list filtered down to the fixed-group
algorithms, exactly as it would be for an empty moduli mapping. -/
theorem missingModuli_degrades (pub : PubMap) (priv : PrivMap)
    (t : Transport) (ifg : String → Bool)
    (h1 : pub ≠ []) (h2 : priv ≠ []) :
    ∃ f2, startFactory ⟨none, none, none⟩ (Except.ok pub) (Except.ok priv)
        defaultGetPrimes = (f2, none) ∧
      f2.primes = some none ∧
      buildProtocol f2 ifg t =
        some { supportedPublicKeys := priv.map Prod.fst,
               supportedKeyExchanges := t.supportedKeyExchanges.filter ifg,
               avatar := t.avatar } ∧
      buildProtocol f2 ifg t =
        buildProtocol ⟨some pub, some priv, some (some [])⟩ ifg t := by
  cases pub with
  | nil => exact absurd rfl h1
  | cons p ps =>
    cases priv with
    | nil => exact absurd rfl h2
    | cons q qs =>
      exact ⟨⟨some (p :: ps), some (q :: qs), some none⟩, rfl, rfl, rfl, rfl⟩

/-- C10 witness: one ed25519 host key, default moduli loader; the
negotiated-group algorithm is dropped and the fixed-group one kept. -/
theorem missingModuli_degrades_witness :
    ∃ f2, startFactory ⟨none, none, none⟩
        (Except.ok [("ssh-ed25519", "pub")])
        (Except.ok [("ssh-ed25519", "key")]) defaultGetPrimes = (f2, none) ∧
      f2.primes = some none ∧
      buildProtocol f2 (fun a => a == "curve25519-sha256")
          ⟨[], ["curve25519-sha256", "diffie-hellman-group-exchange-sha256"],
           false⟩ =
        some { supportedPublicKeys := ["ssh-ed25519"],
               supportedKeyExchanges := ["curve25519-sha256"],
               avatar := false } ∧
      buildProtocol f2 (fun a => a == "curve25519-sha256")
          ⟨[], ["curve25519-sha256", "diffie-hellman-group-exchange-sha256"],
           false⟩ =
        buildProtocol
          ⟨some [("ssh-ed25519", "pub")], some [("ssh-ed25519", "key")],
           some (some [])⟩
          (fun a => a == "curve25519-sha256")
          ⟨[], ["curve25519-sha256", "diffie-hellman-group-exchange-sha256"],
           false⟩ :=
  missingModuli_degrades [("ssh-ed25519", "pub")] [("ssh-ed25519", "key")]
    ⟨[], ["curve25519-sha256", "diffie-hellman-group-exchange-sha256"], false⟩
    (fun a => a == "curve25519-sha256") (by decide) (by decide)

end SSHFactory
